import Mathlib

/-
Shallow embedding of the SSE client registry of webgo
(src/extensions/sse/client.go, package sse).

The registry is a single-owner actor: every public operation submits an
event to the owner goroutine (the listener), which serializes all access
to the map of live clients.  We model:

  * opaque Go values (context.Context, http.ResponseWriter) as Nat handles;
  * a Go channel value (chan *Message) by its allocation identity and its
    capacity — the registry never reads or writes message contents;
  * the map map[string]*Client as an association list with lookup, insert
    (overwriting assignment) and delete mirroring Go map semantics;
  * the events channel as an explicit FIFO queue of pending events in
    SysState.queue; blocking operations (Remove, Clients, Client, Range)
    drain the queue up to and including their own event before returning,
    while New is fire-and-forget: it only appends its insert event;
  * the listener processing of one event as processEvent, returning the
    new owner state, the value sent on the caller's response channel
    (none when a nil response or no response is sent), and the ordered
    trace of observable effects of the branch (the Ctx.Done() call and
    the response send).
-/

/-- Representation of a Go channel value of type chan *Message: the identity
of the allocation performed by make, and the capacity it was created with. -/
structure MsgChan where
  chanId : Nat
  cap : Nat
deriving DecidableEq, Repr

/-- The Client struct: ID, Msg channel, ResponseWriter and Ctx.  The writer
and the context are opaque handles owned by the HTTP layer. -/
structure Client where
  ID : String
  Msg : MsgChan
  ResponseWriter : Nat
  Ctx : Nat
deriving DecidableEq, Repr

/-- One event submitted to the listener.  Each constructor corresponds to one
eventType constant; the payload fields are the fields of the event struct
that the sender fills for that type (the response channel is implicit: the
reply is returned by processEvent). -/
inductive Event where
  | newClient (cli : Client)
  | clientList
  | removeClient (clientID : String)
  | activeClientCount
  | client (clientID : String)
deriving DecidableEq, Repr

/-- The eventResponse struct.  RemainingClients is never assigned by the
listener, so it is always 0; Client is only assigned by the eTypeClient
branch. -/
structure EventResponse where
  Clients : List Client
  RemainingClients : Int
  Client : Option Client
deriving DecidableEq, Repr

/-- Observable side effects of one listener branch, in program order:
the advisory cli.Ctx.Done() call during removal, and the send on the
caller's response channel (none models sending a nil pointer). -/
inductive Effect where
  | ctxDone (ctx : Nat)
  | respond (r : Option EventResponse)
deriving DecidableEq, Repr

/-- The map map[string]*Client, as an association list whose keys are unique
in every state the code can build. -/
abbrev ClientMap := List (String × Client)

/-- Go map read m[k]: the value stored at key k, or none. -/
def mapLookup : ClientMap → String → Option Client
  | [], _ => none
  | (k', v) :: rest, k => if k' = k then some v else mapLookup rest k

/-- Go delete(m, k): removes the entry with key k, if any. -/
def mapErase : ClientMap → String → ClientMap
  | [], _ => []
  | (k', v) :: rest, k => if k' = k then mapErase rest k else (k', v) :: mapErase rest k

/-- Go map assignment m[k] = v: stores v at k, overwriting any prior entry. -/
def mapInsert (m : ClientMap) (k : String) (v : Client) : ClientMap :=
  (k, v) :: mapErase m k

/-- Well-formedness of the association list as a map: keys are unique.
Every map the Go runtime hands out satisfies this. -/
def WFMap (m : ClientMap) : Prop :=
  (m.map Prod.fst).Nodup

instance (m : ClientMap) : Decidable (WFMap m) := by
  unfold WFMap; infer_instance

/-- The Clients struct owned by the listener: the clients map, the MsgBuffer
capacity used for new clients' Msg channels, and (model-only) the allocator
counter that gives each make(chan *Message, ...) a fresh identity. -/
structure ClientsState where
  clients : ClientMap
  MsgBuffer : Nat
  nextChan : Nat
deriving DecidableEq, Repr

/-- Result of the listener processing a single event. -/
structure StepOut where
  state : ClientsState
  resp : Option EventResponse
  effects : List Effect
deriving DecidableEq, Repr

/-- One iteration of Clients.listener: dispatch on the event type.
  * eTypeNewClient stores the client under its ID (overwriting), no reply;
  * eTypeClientList copies all values of the map into a slice and replies
    with eventResponse{Clients: copied} (its Client field stays nil);
  * eTypeRemoveClient looks the id up; if absent it replies nil at once,
    otherwise it calls cli.Ctx.Done(), deletes the entry and replies nil;
  * eTypeClient replies with eventResponse{Client: cs.clients[id]};
  * eTypeActiveClientCount has no case in the switch: nothing happens. -/
def processEvent (s : ClientsState) : Event → StepOut
  | .newClient cli =>
      ⟨{ s with clients := mapInsert s.clients cli.ID cli }, none, []⟩
  | .clientList =>
      let copied := s.clients.map Prod.snd
      ⟨s, some ⟨copied, 0, none⟩, [.respond (some ⟨copied, 0, none⟩)]⟩
  | .removeClient clientID =>
      match mapLookup s.clients clientID with
      | none => ⟨s, none, [.respond none]⟩
      | some cli =>
          ⟨{ s with clients := mapErase s.clients clientID }, none,
            [.ctxDone cli.Ctx, .respond none]⟩
  | .client clientID =>
      ⟨s, some ⟨[], 0, mapLookup s.clients clientID⟩,
        [.respond (some ⟨[], 0, mapLookup s.clients clientID⟩)]⟩
  | .activeClientCount => ⟨s, none, []⟩

/-- The listener consuming a list of queued events in FIFO order. -/
def processAll (reg : ClientsState) (evs : List Event) : ClientsState :=
  evs.foldl (fun s ev => (processEvent s ev).state) reg

/-- The whole system: the owner's state plus the FIFO of events submitted
but not yet consumed by the listener. -/
structure SysState where
  reg : ClientsState
  queue : List Event
deriving DecidableEq, Repr

/-- Clients.New: allocates a fresh Msg channel of capacity cs.MsgBuffer,
builds the Client from the arguments, submits the eTypeNewClient event
without waiting for the listener, and returns the client together with
len(cs.clients) — read directly off the map, before the insert is applied. -/
def ClientsNew (sys : SysState) (ctx w : Nat) (clientID : String) :
    (Client × Nat) × SysState :=
  let mchan : MsgChan := ⟨sys.reg.nextChan, sys.reg.MsgBuffer⟩
  let cli : Client := ⟨clientID, mchan, w, ctx⟩
  ((cli, sys.reg.clients.length),
    ⟨{ sys.reg with nextChan := sys.reg.nextChan + 1 },
      sys.queue ++ [Event.newClient cli]⟩)

/-- Clients.Remove: submits eTypeRemoveClient and blocks on the reply, so the
listener first drains every earlier event, then processes the removal; the
caller then returns len(cs.clients) read after the acknowledgement. -/
def ClientsRemove (sys : SysState) (clientID : String) : Nat × SysState :=
  let reg1 := processAll sys.reg sys.queue
  let step := processEvent reg1 (Event.removeClient clientID)
  (step.state.clients.length, ⟨step.state, []⟩)

/-- Clients.Clients: submits eTypeClientList, blocks on the reply and returns
response.Clients. -/
def ClientsClients (sys : SysState) : List Client × SysState :=
  let reg1 := processAll sys.reg sys.queue
  let step := processEvent reg1 Event.clientList
  (match step.resp with
   | some response => response.Clients
   | none => [], ⟨step.state, []⟩)

/-- Clients.Client: the source submits eTypeClientList (not eTypeClient, and
without filling the event's ClientID field), blocks on the reply and returns
the reply's Client field. -/
def ClientsClient (sys : SysState) (clientID : String) : Option Client × SysState :=
  let reg1 := processAll sys.reg sys.queue
  let step := processEvent reg1 Event.clientList
  (match step.resp with
   | some cli => cli.Client
   | none => none, ⟨step.state, []⟩)

/-- Clients.Range: submits eTypeClientList, blocks on the reply, then calls f
on each element of response.Clients in order, in the calling goroutine.  The
first component collects the values of those calls in invocation order. -/
def ClientsRange {α : Type} (sys : SysState) (f : Client → α) : List α × SysState :=
  let reg1 := processAll sys.reg sys.queue
  let step := processEvent reg1 Event.clientList
  (match step.resp with
   | some response => response.Clients.map f
   | none => [], ⟨step.state, []⟩)

/-- Clients.Active: returns len(cs.clients) directly, without going through
the events queue. -/
def ClientsActive (sys : SysState) : Nat :=
  sys.reg.clients.length

/-- Result of NewClientManager: the initial system state plus the capacity
of the events channel it allocates. -/
structure ManagerInit where
  state : SysState
  eventsCap : Nat
deriving DecidableEq, Repr

/-- NewClientManager: buffer = 10; allocates the events channel with that
capacity, an empty clients map, and MsgBuffer = buffer, then starts the
listener on the empty queue. -/
def NewClientManager : ManagerInit :=
  let buffer := 10
  ⟨⟨⟨[], buffer, 0⟩, []⟩, buffer⟩

/-- A concrete client used by the witnesses below. -/
def cliA : Client := ⟨"a", ⟨0, 10⟩, 0, 0⟩

/-- A second concrete client with the same ID as cliA but a different channel,
writer and context, used by the duplicate-insert witness. -/
def cliA2 : Client := ⟨"a", ⟨5, 10⟩, 1, 7⟩

/-- A concrete system state with one live client and an empty queue. -/
def sysA : SysState := ⟨⟨[("a", cliA)], 10, 1⟩, []⟩

theorem mapLookup_mapErase_self (m : ClientMap) (k : String) :
    mapLookup (mapErase m k) k = none := by
  induction m with
  | nil => rfl
  | cons p rest ih =>
    obtain ⟨k₁, v⟩ := p
    by_cases h : k₁ = k
    · simpa [mapErase, h] using ih
    · simp [mapErase, mapLookup, h, ih]

theorem mapLookup_mapErase_ne (m : ClientMap) (k k₂ : String) (hne : k₂ ≠ k) :
    mapLookup (mapErase m k) k₂ = mapLookup m k₂ := by
  induction m with
  | nil => rfl
  | cons p rest ih =>
    obtain ⟨k₁, v⟩ := p
    by_cases h : k₁ = k
    · subst h
      simp [mapErase, mapLookup, hne.symm, ih]
    · simp only [mapErase, if_neg h, mapLookup]
      by_cases h₂ : k₁ = k₂
      · simp [h₂]
      · simp [h₂, ih]

theorem mapErase_of_lookup_none (m : ClientMap) (k : String)
    (h : mapLookup m k = none) : mapErase m k = m := by
  induction m with
  | nil => rfl
  | cons p rest ih =>
    obtain ⟨k₁, v⟩ := p
    by_cases hk : k₁ = k
    · subst hk
      simp [mapLookup] at h
    · simp only [mapLookup, if_neg hk] at h
      simp [mapErase, hk, ih h]

theorem mapLookup_eq_none_iff (m : ClientMap) (k : String) :
    mapLookup m k = none ↔ k ∉ m.map Prod.fst := by
  induction m with
  | nil => simp [mapLookup]
  | cons p rest ih =>
    obtain ⟨k₁, v⟩ := p
    by_cases hk : k₁ = k
    · subst hk
      simp [mapLookup]
    · simp [mapLookup, hk, ih, Ne.symm hk]

theorem length_mapErase_of_lookup (m : ClientMap) (k : String) (v : Client)
    (hwf : WFMap m) (h : mapLookup m k = some v) :
    (mapErase m k).length + 1 = m.length := by
  induction m with
  | nil => simp [mapLookup] at h
  | cons p rest ih =>
    obtain ⟨k₁, v₁⟩ := p
    by_cases hk : k₁ = k
    · subst hk
      have hwfc : (k₁ :: rest.map Prod.fst).Nodup := hwf
      have hnotmem : k₁ ∉ rest.map Prod.fst := (List.nodup_cons.1 hwfc).1
      have hnone : mapLookup rest k₁ = none := (mapLookup_eq_none_iff rest k₁).2 hnotmem
      simp [mapErase, mapErase_of_lookup_none rest k₁ hnone]
    · have hwfc : (k₁ :: rest.map Prod.fst).Nodup := hwf
      have hwf₂ : WFMap rest := (List.nodup_cons.1 hwfc).2
      simp only [mapLookup, if_neg hk] at h
      simp only [mapErase, if_neg hk, List.length_cons]
      rw [ih hwf₂ h]

/-- The set of ids currently live in the map. -/
def mapKeys (m : ClientMap) : Finset String :=
  (m.map Prod.fst).toFinset

theorem mapKeys_mapErase (m : ClientMap) (k : String) :
    mapKeys (mapErase m k) = (mapKeys m).erase k := by
  induction m with
  | nil => simp [mapErase, mapKeys]
  | cons p rest ih =>
    obtain ⟨k₁, v⟩ := p
    by_cases hk : k₁ = k
    · subst hk
      rw [show mapErase ((k₁, v) :: rest) k₁ = mapErase rest k₁ from by simp [mapErase]]
      rw [ih]
      ext x
      simp [mapKeys, Finset.mem_erase]
    · rw [show mapErase ((k₁, v) :: rest) k = (k₁, v) :: mapErase rest k from by
        simp [mapErase, hk]]
      have hcons : mapKeys ((k₁, v) :: mapErase rest k) = insert k₁ (mapKeys (mapErase rest k)) := by
        simp [mapKeys]
      rw [hcons, ih]
      have hcons₂ : mapKeys ((k₁, v) :: rest) = insert k₁ (mapKeys rest) := by
        simp [mapKeys]
      rw [hcons₂, Finset.erase_insert_of_ne hk]

theorem mapKeys_mapInsert (m : ClientMap) (k : String) (v : Client) :
    mapKeys (mapInsert m k v) = insert k (mapKeys m) := by
  have h : mapKeys (mapInsert m k v) = insert k (mapKeys (mapErase m k)) := by
    simp [mapKeys, mapInsert]
  rw [h, mapKeys_mapErase]
  ext x
  simp [Finset.mem_insert, Finset.mem_erase]
  tauto

/-- Specification-level effect of one request on the set of live ids, in the
words of the spec: an add inserts its id, a remove erases its id, and every
other request leaves the live set unchanged; a sequence of requests is
applied one at a time, in FIFO order, by folding this step function. -/
def specStep (ids : Finset String) : Event → Finset String
  | .newClient cli => insert cli.ID ids
  | .removeClient clientID => ids.erase clientID
  | _ => ids

theorem mapKeys_processEvent (s : ClientsState) (ev : Event) :
    mapKeys (processEvent s ev).state.clients = specStep (mapKeys s.clients) ev := by
  cases ev with
  | newClient cli => simp [processEvent, specStep, mapKeys_mapInsert]
  | clientList => rfl
  | removeClient clientID =>
    cases h : mapLookup s.clients clientID with
    | none =>
      have hnm : clientID ∉ mapKeys s.clients := by
        have := (mapLookup_eq_none_iff s.clients clientID).1 h
        simpa [mapKeys] using this
      simp [processEvent, h, specStep, Finset.erase_eq_of_not_mem hnm]
    | some cli => simp [processEvent, h, specStep, mapKeys_mapErase]
  | client clientID => rfl
  | activeClientCount => rfl

theorem mapKeys_processAll (reg : ClientsState) (evs : List Event) :
    mapKeys (processAll reg evs).clients = evs.foldl specStep (mapKeys reg.clients) := by
  induction evs generalizing reg with
  | nil => rfl
  | cons ev rest ih =>
    rw [show processAll reg (ev :: rest) = processAll (processEvent reg ev).state rest from rfl]
    rw [ih, mapKeys_processEvent]
    rfl

/-- C2: starting from the empty registry, the set of live ids after the owner
has processed any FIFO sequence of requests equals the spec-level fold of
those requests over the empty set (ids added minus ids removed, applied one
at a time in arrival order); each request is applied atomically by a single
processEvent step, so no mutation interleaves with another and every reader
of the resulting state sees a fully applied mutation. -/
theorem c2_live_map_is_fifo_fold (evs : List Event) :
    mapKeys (processAll NewClientManager.state.reg evs).clients =
      evs.foldl specStep ∅ := by
  have h := mapKeys_processAll NewClientManager.state.reg evs
  simpa [NewClientManager, mapKeys] using h

/-- Strong well-formedness: keys are unique and every stored client is keyed
by its own ID.  Every state the code builds satisfies this, because the
eTypeNewClient branch stores ev.Client under ev.Client.ID. -/
def WFMapStrong (m : ClientMap) : Prop :=
  WFMap m ∧ ∀ p ∈ m, p.2.ID = p.1

instance (m : ClientMap) : Decidable (WFMapStrong m) := by
  unfold WFMapStrong WFMap
  infer_instance

theorem nodup_values_of_wfstrong (m : ClientMap) (h : WFMapStrong m) :
    (m.map Prod.snd).Nodup := by
  have h₁ : (m.map fun p => p.2.ID).Nodup := by
    have heq : (m.map fun p => p.2.ID) = m.map Prod.fst :=
      List.map_congr_left (fun p hp => h.2 p hp)
    rw [heq]
    exact h.1
  have h₂ : ((m.map Prod.snd).map Client.ID).Nodup := by
    simpa [List.map_map] using h₁
  exact List.Nodup.of_map _ h₂

/-- C3: Clients() returns a full snapshot copy of the registry at the instant
the owner processes the list request (after draining every earlier queued
event): the returned sequence is exactly an enumeration of the live map's
records, each entry exactly once (it has no duplicates whenever the map is
well formed), and the live map is left unchanged by the operation. -/
theorem c3_clients_snapshot (sys : SysState) :
    (ClientsClients sys).1 = (processAll sys.reg sys.queue).clients.map Prod.snd ∧
    (ClientsClients sys).2.reg = processAll sys.reg sys.queue ∧
    (WFMapStrong (processAll sys.reg sys.queue).clients →
      (ClientsClients sys).1.Nodup) := by
  refine ⟨rfl, rfl, ?_⟩
  intro h
  exact nodup_values_of_wfstrong _ h

/-- Witness for c3_clients_snapshot at the one-client state sysA. -/
theorem c3_clients_snapshot_witness :
    (ClientsClients sysA).1 = [cliA] ∧ (ClientsClients sysA).1.Nodup :=
  ⟨by rfl, (c3_clients_snapshot sysA).2.2 (by decide)⟩

/-- C4: processing Remove(id) first drains the queue; if id is then absent in
the live map the removal is a no-op that still acknowledges — the map and
the returned count are unaffected; if id is present, exactly that entry is
deleted (its lookup becomes none, every other id's lookup is unchanged, and
on a well-formed map the size drops by exactly one) and the returned count
is the length of the map read after the removal. -/
theorem c4_remove_present_absent (sys : SysState) (clientID : String) :
    (mapLookup (processAll sys.reg sys.queue).clients clientID = none →
      (ClientsRemove sys clientID).2.reg.clients =
          (processAll sys.reg sys.queue).clients ∧
        (ClientsRemove sys clientID).1 =
          (processAll sys.reg sys.queue).clients.length) ∧
    (∀ cli, mapLookup (processAll sys.reg sys.queue).clients clientID = some cli →
      mapLookup (ClientsRemove sys clientID).2.reg.clients clientID = none ∧
      (∀ k, k ≠ clientID →
        mapLookup (ClientsRemove sys clientID).2.reg.clients k =
          mapLookup (processAll sys.reg sys.queue).clients k) ∧
      (ClientsRemove sys clientID).1 = (ClientsRemove sys clientID).2.reg.clients.length ∧
      (WFMap (processAll sys.reg sys.queue).clients →
        (ClientsRemove sys clientID).1 + 1 =
          (processAll sys.reg sys.queue).clients.length)) := by
  constructor
  · intro h
    constructor
    · simp [ClientsRemove, processEvent, h]
    · simp [ClientsRemove, processEvent, h]
  · intro cli h
    refine ⟨?_, ?_, rfl, ?_⟩
    · simp [ClientsRemove, processEvent, h, mapLookup_mapErase_self]
    · intro k hk
      simp [ClientsRemove, processEvent, h, mapLookup_mapErase_ne _ _ _ hk]
    · intro hwf
      have hstep : (ClientsRemove sys clientID).1 =
          (mapErase (processAll sys.reg sys.queue).clients clientID).length := by
        simp [ClientsRemove, processEvent, h]
      rw [hstep]
      exact length_mapErase_of_lookup _ _ _ hwf h

/-- Witness for c4_remove_present_absent: at sysA, removing the live id a
empties the map and returns 0, and removing the absent id b changes nothing
and returns 1. -/
theorem c4_remove_present_absent_witness :
    mapLookup (ClientsRemove sysA "a").2.reg.clients "a" = none ∧
    (ClientsRemove sysA "a").1 + 1 = 1 ∧
    (ClientsRemove sysA "b").2.reg.clients = sysA.reg.clients ∧
    (ClientsRemove sysA "b").1 = 1 := by
  have hp := (c4_remove_present_absent sysA "a").2 cliA (by decide)
  have ha := (c4_remove_present_absent sysA "b").1 (by decide)
  exact ⟨hp.1, hp.2.2.2 (by decide), ha.1, ha.2⟩

/-- C5: when id is live, the listener's removal branch invokes the removed
record's Ctx.Done() (the advisory poke of the lifetime context) strictly
before it sends the acknowledgement on the caller's response channel: its
effect trace is exactly the Done call followed by the nil response. -/
theorem c5_remove_pokes_ctx_before_ack (s : ClientsState) (clientID : String)
    (cli : Client) (h : mapLookup s.clients clientID = some cli) :
    (processEvent s (Event.removeClient clientID)).effects =
      [Effect.ctxDone cli.Ctx, Effect.respond none] := by
  simp [processEvent, h]

/-- Witness for c5_remove_pokes_ctx_before_ack at the one-client state. -/
theorem c5_remove_pokes_ctx_before_ack_witness :
    (processEvent sysA.reg (Event.removeClient "a")).effects =
      [Effect.ctxDone cliA.Ctx, Effect.respond none] :=
  c5_remove_pokes_ctx_before_ack sysA.reg "a" cliA (by decide)

/-- C6: when an add request carries a client whose ID already has an entry,
the insert silently overwrites: afterwards the map yields the new record for
that id, every other id's entry is unchanged, and the branch sends no
response and produces no effect at all (no error is signalled). -/
theorem c6_duplicate_insert_overwrites (s : ClientsState) (cli old : Client)
    (h : mapLookup s.clients cli.ID = some old) :
    mapLookup (processEvent s (Event.newClient cli)).state.clients cli.ID = some cli ∧
    (∀ k, k ≠ cli.ID →
      mapLookup (processEvent s (Event.newClient cli)).state.clients k =
        mapLookup s.clients k) ∧
    (processEvent s (Event.newClient cli)).resp = none ∧
    (processEvent s (Event.newClient cli)).effects = [] := by
  refine ⟨?_, ?_, rfl, rfl⟩
  · simp [processEvent, mapInsert, mapLookup]
  · intro k hk
    show mapLookup (mapInsert s.clients cli.ID cli) k = mapLookup s.clients k
    simp only [mapInsert, mapLookup, if_neg (Ne.symm hk)]
    exact mapLookup_mapErase_ne _ _ _ hk

/-- Witness for c6_duplicate_insert_overwrites: inserting cliA2 over the live
entry of cliA (same ID a) replaces it silently. -/
theorem c6_duplicate_insert_overwrites_witness :
    mapLookup (processEvent sysA.reg (Event.newClient cliA2)).state.clients cliA2.ID =
      some cliA2 ∧
    (processEvent sysA.reg (Event.newClient cliA2)).effects = [] := by
  have h := c6_duplicate_insert_overwrites sysA.reg cliA2 cliA (by decide)
  exact ⟨h.1, h.2.2.2⟩

/-- C7: New(ctx, w, id) builds a record whose ID, Ctx and ResponseWriter are
exactly the supplied arguments and whose Msg channel is freshly allocated
(distinct from every channel already held by a live client) with capacity
MsgBuffer; it appends its insert event to the queue without waiting for the
owner, so the live map is untouched when it returns, and the count it
returns is the size of the live map before its insert is applied. -/
theorem c7_new_fire_and_forget (sys : SysState) (ctx w : Nat) (clientID : String)
    (hfresh : ∀ p ∈ sys.reg.clients, p.2.Msg.chanId < sys.reg.nextChan) :
    ((ClientsNew sys ctx w clientID).1.1).ID = clientID ∧
    ((ClientsNew sys ctx w clientID).1.1).Ctx = ctx ∧
    ((ClientsNew sys ctx w clientID).1.1).ResponseWriter = w ∧
    ((ClientsNew sys ctx w clientID).1.1).Msg.cap = sys.reg.MsgBuffer ∧
    (∀ p ∈ sys.reg.clients,
      p.2.Msg.chanId ≠ ((ClientsNew sys ctx w clientID).1.1).Msg.chanId) ∧
    (ClientsNew sys ctx w clientID).1.2 = sys.reg.clients.length ∧
    (ClientsNew sys ctx w clientID).2.reg.clients = sys.reg.clients ∧
    (ClientsNew sys ctx w clientID).2.queue =
      sys.queue ++ [Event.newClient ((ClientsNew sys ctx w clientID).1.1)] := by
  refine ⟨rfl, rfl, rfl, rfl, ?_, rfl, rfl, rfl⟩
  intro p hp
  exact Nat.ne_of_lt (hfresh p hp)

/-- Witness for c7_new_fire_and_forget at the one-client state sysA. -/
theorem c7_new_fire_and_forget_witness :
    ((ClientsNew sysA 3 4 "b").1.1).ID = "b" ∧
    ((ClientsNew sysA 3 4 "b").1.1).Ctx = 3 ∧
    ((ClientsNew sysA 3 4 "b").1.1).Msg.cap = 10 ∧
    (ClientsNew sysA 3 4 "b").1.2 = 1 ∧
    (ClientsNew sysA 3 4 "b").2.reg.clients = sysA.reg.clients := by
  have h := c7_new_fire_and_forget sysA 3 4 "b" (by decide)
  exact ⟨h.1, h.2.1, h.2.2.2.1, h.2.2.2.2.2.1, h.2.2.2.2.2.2.1⟩

/-- C8: for every visitor f, Range is the same request as Clients followed by
one sequential invocation of f per snapshot record, in the calling
goroutine: the values produced in visit order are exactly f mapped over the
Clients() snapshot, and both operations leave the system in the same
state. -/
theorem c8_range_refines_clients {α : Type} (sys : SysState) (f : Client → α) :
    (ClientsRange sys f).1 = ((ClientsClients sys).1).map f ∧
    (ClientsRange sys f).2 = (ClientsClients sys).2 :=
  ⟨rfl, rfl⟩

/-- C9: Remove is idempotent: a second Remove(id) immediately after a first
one finds nothing to delete, leaves the live map exactly as the first call
left it, and returns the same count as the first call; neither call can
signal an error, as the operation is total. -/
theorem c9_remove_idempotent (sys : SysState) (clientID : String) :
    (ClientsRemove ((ClientsRemove sys clientID).2) clientID).1 =
      (ClientsRemove sys clientID).1 ∧
    (ClientsRemove ((ClientsRemove sys clientID).2) clientID).2.reg.clients =
      (ClientsRemove sys clientID).2.reg.clients := by
  have hnone : mapLookup ((ClientsRemove sys clientID).2.reg).clients clientID = none := by
    cases h : mapLookup (processAll sys.reg sys.queue).clients clientID with
    | none => simpa [ClientsRemove, processEvent, h] using h
    | some cli => simp [ClientsRemove, processEvent, h, mapLookup_mapErase_self]
  constructor
  · show (processEvent (processAll ((ClientsRemove sys clientID).2.reg) [])
        (Event.removeClient clientID)).state.clients.length = (ClientsRemove sys clientID).1
    rw [show processAll ((ClientsRemove sys clientID).2.reg) [] =
        (ClientsRemove sys clientID).2.reg from rfl]
    simp [processEvent, hnone]
    rfl
  · show (processEvent (processAll ((ClientsRemove sys clientID).2.reg) [])
        (Event.removeClient clientID)).state.clients =
      (ClientsRemove sys clientID).2.reg.clients
    rw [show processAll ((ClientsRemove sys clientID).2.reg) [] =
        (ClientsRemove sys clientID).2.reg from rfl]
    simp [processEvent, hnone]

/-- C1 is violated by the code: Clients.Client submits an eTypeClientList
event (not eTypeClient), does not even copy its clientID argument into the
event, and returns the reply's Client field — which the eTypeClientList
listener branch never assigns.  So Client(id) returns none for every id and
every state (last conjunct), even when the record is live: concretely, after
NewClientManager and New(0, 0, a), the lookup operation itself drains the
queue, so the record with ID a is in the live map when the owner serves the
list request (first conjunct), yet none is returned (second conjunct); the
dead eTypeClient listener branch would have produced the record (third
conjunct), matching the documented contract of ClientManager.Client. -/
theorem c1_client_lookup_always_none :
    mapLookup
        ((ClientsClient ((ClientsNew NewClientManager.state 0 0 "a").2) "a").2.reg.clients)
        "a" = some ((ClientsNew NewClientManager.state 0 0 "a").1.1) ∧
    (ClientsClient ((ClientsNew NewClientManager.state 0 0 "a").2) "a").1 = none ∧
    (processEvent ((ClientsClient ((ClientsNew NewClientManager.state 0 0 "a").2) "a").2.reg)
        (Event.client "a")).resp =
      some ⟨[], 0, some ((ClientsNew NewClientManager.state 0 0 "a").1.1)⟩ ∧
    (∀ sys clientID, (ClientsClient sys clientID).1 = none) :=
  ⟨by decide, by decide, by decide, fun sys clientID => rfl⟩

/-- System states reachable from NewClientManager through the public
operations. -/
inductive Reachable : SysState → Prop where
  | init : Reachable NewClientManager.state
  | step_new (s : SysState) (ctx w : Nat) (clientID : String) :
      Reachable s → Reachable (ClientsNew s ctx w clientID).2
  | step_remove (s : SysState) (clientID : String) :
      Reachable s → Reachable (ClientsRemove s clientID).2
  | step_list (s : SysState) : Reachable s → Reachable (ClientsClients s).2
  | step_lookup (s : SysState) (clientID : String) :
      Reachable s → Reachable (ClientsClient s clientID).2
  | step_range (s : SysState) (f : Client → Unit) :
      Reachable s → Reachable (ClientsRange s f).2

theorem MsgBuffer_processEvent (s : ClientsState) (ev : Event) :
    (processEvent s ev).state.MsgBuffer = s.MsgBuffer := by
  cases ev with
  | newClient cli => rfl
  | clientList => rfl
  | removeClient clientID =>
    cases h : mapLookup s.clients clientID with
    | none => simp [processEvent, h]
    | some cli => simp [processEvent, h]
  | activeClientCount => rfl
  | client clientID => rfl

theorem MsgBuffer_processAll (reg : ClientsState) (evs : List Event) :
    (processAll reg evs).MsgBuffer = reg.MsgBuffer := by
  induction evs generalizing reg with
  | nil => rfl
  | cons ev rest ih =>
    rw [show processAll reg (ev :: rest) = processAll (processEvent reg ev).state rest from rfl,
      ih, MsgBuffer_processEvent]

theorem Reachable.msgBuffer (s : SysState) (h : Reachable s) : s.reg.MsgBuffer = 10 := by
  induction h with
  | init => rfl
  | step_new s ctx w clientID hs ih => exact ih
  | step_remove s clientID hs ih =>
    show (processEvent (processAll s.reg s.queue) (Event.removeClient clientID)).state.MsgBuffer = 10
    rw [MsgBuffer_processEvent, MsgBuffer_processAll]
    exact ih
  | step_list s hs ih =>
    show (processEvent (processAll s.reg s.queue) Event.clientList).state.MsgBuffer = 10
    rw [MsgBuffer_processEvent, MsgBuffer_processAll]
    exact ih
  | step_lookup s clientID hs ih =>
    show (processEvent (processAll s.reg s.queue) Event.clientList).state.MsgBuffer = 10
    rw [MsgBuffer_processEvent, MsgBuffer_processAll]
    exact ih
  | step_range s f hs ih =>
    show (processEvent (processAll s.reg s.queue) Event.clientList).state.MsgBuffer = 10
    rw [MsgBuffer_processEvent, MsgBuffer_processAll]
    exact ih

/-- C10: NewClientManager starts with an empty live map, a per-client message
buffer capacity MsgBuffer of 10 and an events-queue capacity of 10 — the
same constant — and in every system state reachable from this constructor
through the public operations, a client created by New gets a Msg channel of
capacity exactly 10. -/
theorem c10_manager_constants :
    NewClientManager.state.reg.clients = [] ∧
    NewClientManager.state.reg.MsgBuffer = 10 ∧
    NewClientManager.eventsCap = 10 ∧
    NewClientManager.state.reg.MsgBuffer = NewClientManager.eventsCap ∧
    (∀ s, Reachable s → ∀ ctx w clientID,
      ((ClientsNew s ctx w clientID).1.1).Msg.cap = 10) := by
  refine ⟨rfl, rfl, rfl, rfl, ?_⟩
  intro s hs ctx w clientID
  show s.reg.MsgBuffer = 10
  exact Reachable.msgBuffer s hs

/-- Witness for c10_manager_constants at the freshly constructed manager. -/
theorem c10_manager_constants_witness :
    ((ClientsNew NewClientManager.state 0 0 "a").1.1).Msg.cap = 10 :=
  c10_manager_constants.2.2.2.2 NewClientManager.state Reachable.init 0 0 "a"
